import Mathlib

/-!
Shallow embedding of the movement core of this repository, translated from
src/native/src/move.cpp (the wrapper around the embedded Box2D engine) and
src/isles.native/api.h.  The Box2D engine itself is an external collaborator
that is not part of the repository: its step driver, AABB-query driver and
raycast driver are modelled from the spec and from the fixed callback protocol
visible in move.cpp; every such definition carries a doc comment starting
with "Modelled from the spec:".  Everything else is translated directly from
move.cpp.  Float32 scalars are idealized as rationals (reals for the density
computation), and the strided caller-owned unit array is modelled as a list,
with get_unit as list indexing.
-/

/-- Two-dimensional vector, the model of b2Vec2 with float32 idealized as a
rational number. -/
structure B2Vec2 where
  x : ℚ
  y : ℚ
deriving DecidableEq, Inhabited

/-- The unit record of move.h as used by move.cpp: radius, position, velocity,
force, and the uint32 flag word (modelled as a natural number below 2 to the
power 32). -/
structure MoveUnit where
  radius : ℚ
  position : B2Vec2
  velocity : B2Vec2
  force : B2Vec2
  state : Nat
deriving DecidableEq, Inhabited

/-- The IN_CONTACT flag, bit 0 of the state word. -/
def MOVE_IN_CONTACT : Nat := 1

/-- The engine-side body as far as move.cpp observes it: shape radius,
position, linear velocity, accumulated force, the sleep flag, and the fixture
user-data pointer (the scratch index stamped by create_body). -/
structure B2Body where
  radius : ℚ
  position : B2Vec2
  velocity : B2Vec2
  forceAcc : B2Vec2
  awake : Bool
  scratch : Nat
deriving DecidableEq, Inhabited

/-- One entry of the engine contact list: the enabled and touching flags and
the user-data pointers of the two fixtures.  Obstacle fixtures keep the
engine default user-data pointer 0, because move.cpp never stamps them
(move_add_obstacle is declared in api.h but absent from the sources). -/
structure Contact where
  enabled : Bool
  touching : Bool
  a : Nat
  b : Nat
deriving DecidableEq, Inhabited

/-- MoveWorld from move.cpp: the body vector plus the engine contact list. -/
structure MoveWorld where
  bodies : List B2Body
  contacts : List Contact
deriving DecidableEq, Inhabited

/-- move_new from move.cpp: a fresh world with no bodies and no contacts. -/
def move_new : MoveWorld := { bodies := [], contacts := [] }

/-- get_unit from move.cpp: the stride-based pointer arithmetic is modelled as
indexing into the list of unit records. -/
def get_unit (units : List MoveUnit) (i : Nat) : MoveUnit :=
  units.getD i default

/-- create_body from move.cpp: a dynamic circle body at the unit position with
the unit radius, initially at rest, with the index i stamped into the fixture
user data.  The density written on the C side is treated in the real-valued
fixtureDensity below. -/
def create_body (unit : MoveUnit) (i : Nat) : B2Body :=
  { radius := unit.radius
    position := unit.position
    velocity := ⟨0, 0⟩
    forceAcc := ⟨0, 0⟩
    awake := true
    scratch := i }

/-- The wake argument computed at the ApplyForceToCenter call site in
move_step: force.x != 0 or force.y != 0. -/
def forceWake (f : B2Vec2) : Bool :=
  decide (f.x ≠ 0) || decide (f.y ≠ 0)

/-- Modelled from the spec: b2Body ApplyForceToCenter of the external engine.
A sleeping body is woken only when the wake argument is true, and the force is
accumulated only while the body is awake, so zero forces applied with
wake=false do not disturb sleeping bodies. -/
def applyForceToCenter (body : B2Body) (f : B2Vec2) (wake : Bool) : B2Body :=
  let body1 := if wake && !body.awake then { body with awake := true } else body
  if body1.awake then
    { body1 with forceAcc := ⟨body1.forceAcc.x + f.x, body1.forceAcc.y + f.y⟩ }
  else body1

/-- One iteration of the first loop of move_step (lines 55-61) at index i:
push a new body when the index is not yet backed, then apply the unit force at
the body center with the computed wake flag. -/
def stepBody (units : List MoveUnit) (i : Nat) (bodies : List B2Body) : List B2Body :=
  let u := get_unit units i
  let bodies1 := if bodies.length ≤ i then bodies ++ [create_body u i] else bodies
  bodies1.set i (applyForceToCenter (bodies1.getD i default) u.force (forceWake u.force))

/-- The first loop of move_step: run stepBody at each index.  The first
argument of the recursion is the current index, the second the number of
indices still to process. -/
def stepPhase1Aux (units : List MoveUnit) : Nat → Nat → List B2Body → List B2Body
  | _, 0, bodies => bodies
  | i, n + 1, bodies => stepPhase1Aux units (i + 1) n (stepBody units i bodies)

/-- The reconcile-and-apply-forces phase of move_step over all unit indices. -/
def stepPhase1 (bodies : List B2Body) (units : List MoveUnit) : List B2Body :=
  stepPhase1Aux units 0 units.length bodies

/-- Modelled from the spec: the external engine step b2World::Step.  It is an
arbitrary function from the body list, the time step and the two iteration
counts to the post-step body list and the post-step contact list. -/
abbrev B2Step := List B2Body → ℚ → Nat → Nat → List B2Body × List Contact

/-- Modelled from the spec: the engine step integrates motion but neither
creates nor destroys bodies and never touches fixture user data or shape
radii.  Any faithful engine step satisfies this predicate. -/
def B2StepOK (σ : B2Step) : Prop :=
  ∀ bodies dt vIters posIters,
    ((σ bodies dt vIters posIters).1).length = bodies.length ∧
    ∀ j, (((σ bodies dt vIters posIters).1).getD j default).scratch
            = (bodies.getD j default).scratch ∧
         (((σ bodies dt vIters posIters).1).getD j default).radius
            = (bodies.getD j default).radius

/-- A trivial engine step: bodies unchanged, no contacts.  Used to instantiate
the abstract engine on concrete inputs. -/
def idStep : B2Step := fun bodies _ _ _ => (bodies, [])

/-- The body of the write-back loop of move_step (lines 65-71): copy the body
position and linear velocity into the unit and clear the IN_CONTACT bit with
the uint32 mask ~MOVE_IN_CONTACT = 0xFFFFFFFE. -/
def wbUnit (body : B2Body) (u : MoveUnit) : MoveUnit :=
  { u with position := body.position
           velocity := body.velocity
           state := u.state &&& 0xFFFFFFFE }

/-- The write-back loop of move_step, recursing over the unit list while
tracking the current index into the body list. -/
def writeBackAux (bodies : List B2Body) : Nat → List MoveUnit → List MoveUnit
  | _, [] => []
  | i, u :: us => wbUnit (bodies.getD i default) u :: writeBackAux bodies (i + 1) us

/-- Setting the IN_CONTACT bit of one unit record, the effect of
state |= MOVE_IN_CONTACT in the contact walk. -/
def orInContact (u : MoveUnit) : MoveUnit :=
  { u with state := u.state ||| MOVE_IN_CONTACT }

/-- One flag store of the contact walk: get_unit(units, stride, i).state |=
MOVE_IN_CONTACT.  An out-of-range index (undefined behavior on the C side) is
modelled as a no-op of List.set. -/
def setFlagAt (units : List MoveUnit) (i : Nat) : List MoveUnit :=
  units.set i (orInContact (get_unit units i))

/-- The contact walk of move_step (lines 73-83): for every contact that is
both enabled and touching, set IN_CONTACT on the units named by the two
fixture user-data pointers. -/
def contactPhase (units : List MoveUnit) : List Contact → List MoveUnit
  | [] => units
  | c :: cs =>
    if c.enabled && c.touching then
      contactPhase (setFlagAt (setFlagAt units c.a) c.b) cs
    else
      contactPhase units cs

/-- move_step from move.cpp, parameterized by the external engine step σ:
reconcile bodies and apply forces, step the engine with 8 velocity and 3
position iterations, write back positions and velocities while clearing
IN_CONTACT, then walk the contact list. -/
def move_step (σ : B2Step) (world : MoveWorld) (units : List MoveUnit) (dt : ℚ) :
    MoveWorld × List MoveUnit :=
  let bodies := stepPhase1 world.bodies units
  let out := σ bodies dt 8 3
  let units1 := writeBackAux out.1 0 units
  let units2 := contactPhase units1 out.2
  ({ bodies := out.1, contacts := out.2 }, units2)

/-- A sequence of move_step calls, each with its own unit array and dt. -/
def stepCalls (σ : B2Step) : MoveWorld → List (List MoveUnit × ℚ) → MoveWorld
  | w, [] => w
  | w, (us, dt) :: rest => stepCalls σ (move_step σ w us dt).1 rest

/-- Whether a contact is enabled, touching, and has unit index i on one side. -/
def contactHits (c : Contact) (i : Nat) : Bool :=
  c.enabled && c.touching && (c.a == i || c.b == i)

/-- Whether some contact of the list is enabled, touching, and involves i. -/
def touchFlag (cs : List Contact) (i : Nat) : Bool :=
  cs.any fun c => contactHits c i

/-- Whether units i and j are touching through some enabled contact. -/
def unitTouch (cs : List Contact) (i j : Nat) : Bool :=
  cs.any fun c =>
    c.enabled && c.touching && ((c.a == i && c.b == j) || (c.a == j && c.b == i))

/-- The state of MoveQueryCallback: the begin and end pointers are modelled as
the list of indices written so far together with the buffer capacity. -/
structure MoveQueryState where
  written : List Nat
  capacity : Nat
deriving DecidableEq, Inhabited

/-- MoveQueryCallback::ReportFixture from move.cpp: when the buffer is full
(begin == end) report false to stop the query, otherwise append the fixture
user-data index and continue. -/
def queryReportFixture (s : MoveQueryState) (i : Nat) : MoveQueryState × Bool :=
  if s.written.length = s.capacity then (s, false)
  else ({ s with written := s.written ++ [i] }, true)

/-- Modelled from the spec: b2World::QueryAABB calls ReportFixture once for
each fixture overlapping the AABB, in engine report order, until the callback
returns false.  The hits argument lists the user-data indices of the
overlapping fixtures in that order. -/
def queryEngine : MoveQueryState → List Nat → MoveQueryState
  | s, [] => s
  | s, i :: hs =>
    let r := queryReportFixture s i
    if r.2 then queryEngine r.1 hs else r.1

/-- move_query_aabb from move.cpp: run the query with begin = units and
end = units + capacity, then return cb.end - cb.begin, the pointer difference
after begin has advanced past everything written. -/
def move_query_aabb (hits : List Nat) (capacity : Nat) : List Nat × Int :=
  let s := queryEngine { written := [], capacity := capacity } hits
  (s.written, (capacity : Int) - s.written.length)

/-- The state of MoveRayCastCallback: the out pointer content and the result
flag. -/
structure MoveRayCastState where
  unit : Nat
  result : Int
deriving DecidableEq, Inhabited

/-- MoveRayCastCallback::ReportFixture from move.cpp: store the fixture
user-data index, set result to 1, and return the clip fraction 0, which tells
the engine to terminate the ray cast. -/
def rayReportFixture (_s : MoveRayCastState) (i : Nat) : MoveRayCastState × ℚ :=
  ({ unit := i, result := 1 }, 0)

/-- Modelled from the spec: the raycast driver b2World::RayCast reports
candidate hits in order and stops as soon as the callback returns clip
fraction 0; with this fixed callback every report terminates the cast, so any
clipping on a nonzero return is unreachable and omitted. -/
def rayCastEngine : MoveRayCastState → List (Nat × ℚ) → MoveRayCastState
  | s, [] => s
  | s, (i, _) :: hs =>
    let r := rayReportFixture s i
    if r.2 = 0 then r.1 else rayCastEngine r.1 hs

/-- move_raycast from move.cpp: result starts at 0, the out location is the
callback unit pointer, and the hits list holds the candidate fixtures as pairs
of user-data index and ray fraction, in engine report order. -/
def move_raycast (hits : List (Nat × ℚ)) (prior : Nat) : Nat × Int :=
  let s := rayCastEngine { unit := prior, result := 0 } hits
  (s.unit, s.result)

/-- A unit at rest used for concrete evaluations: radius 1 at the origin with
no force and clear state. -/
def demoUnit : MoveUnit :=
  { radius := 1, position := ⟨0, 0⟩, velocity := ⟨0, 0⟩, force := ⟨0, 0⟩, state := 0 }

/-- Claim C1 failing input: the engine reports exactly one overlapping unit
(index 0) and the buffer has capacity 3.  The callback writes the single index
but move_query_aabb returns cb.end - cb.begin = 3 - 1 = 2, not the number
written: the returned value differs from the length of what was written. -/
theorem move_query_aabb_returns_capacity_minus_written :
    move_query_aabb [0] 3 = ([0], 2) ∧
    (move_query_aabb [0] 3).2 ≠ ((move_query_aabb [0] 3).1.length : Int) := by
  decide

/-- Claim C10: when move_raycast returns 0, the out location still holds its
prior value, so the out parameter is meaningful only on return value 1. -/
theorem move_raycast_miss_preserves_out (hits : List (Nat × ℚ)) (prior : Nat)
    (h : (move_raycast hits prior).2 = 0) :
    (move_raycast hits prior).1 = prior := by
  cases hits with
  | nil => rfl
  | cons p hs =>
    exfalso
    cases p
    simp [move_raycast, rayCastEngine, rayReportFixture] at h

/-- Witness for C10 at the empty hit list with prior value 7. -/
theorem move_raycast_miss_preserves_out_witness :
    (move_raycast [] 7).2 = 0 ∧ (move_raycast [] 7).1 = 7 :=
  ⟨rfl, move_raycast_miss_preserves_out [] 7 rfl⟩

/-- In a fraction-sorted hit list the head fraction is minimal. -/
lemma chain_head_le (h0 : Nat × ℚ) (rest : List (Nat × ℚ))
    (h : List.Chain' (fun p q : Nat × ℚ => p.2 ≤ q.2) (h0 :: rest)) :
    ∀ p ∈ h0 :: rest, h0.2 ≤ p.2 := by
  induction rest generalizing h0 with
  | nil =>
    intro p hp
    rcases List.mem_singleton.mp hp with rfl
    exact le_refl _
  | cons h1 rest ih =>
    rw [List.chain'_cons] at h
    intro p hp
    rcases List.mem_cons.mp hp with rfl | hp1
    · exact le_refl _
    · exact le_trans h.1 (ih h1 h.2 p hp1)

/-- Claim C4: with the engine reporting candidate hits earliest fraction
first (the spec reporting order), move_raycast returns 1 together with the
index of the minimal-fraction hit, and returns 0 leaving the out value alone
when the ray hits nothing. -/
theorem move_raycast_first_hit (hits : List (Nat × ℚ)) (prior : Nat)
    (hsorted : List.Chain' (fun p q : Nat × ℚ => p.2 ≤ q.2) hits) :
    (hits = [] → move_raycast hits prior = (prior, 0)) ∧
    (∀ h0 rest, hits = h0 :: rest →
      move_raycast hits prior = (h0.1, 1) ∧ ∀ p ∈ hits, h0.2 ≤ p.2) := by
  constructor
  · intro h
    subst h
    rfl
  · intro h0 rest h
    subst h
    refine ⟨?_, chain_head_le h0 rest hsorted⟩
    cases h0
    rfl

/-- The hit list of the concrete raycast scenario: unit 0 of radius 1 at the
origin is entered at x = -1, fraction 4/15 of the ray from (-5,0) to (10,0),
and unit 1 of radius 1 at (5,0) is entered at x = 4, fraction 3/5. -/
def rayHitsDemo : List (Nat × ℚ) := [(0, 4/15), (1, 3/5)]

/-- Witness for C4 at the spec scenario: the hit list is fraction-sorted and
move_raycast returns 1 with index 0, the earliest fraction. -/
theorem move_raycast_first_hit_witness :
    List.Chain' (fun p q : Nat × ℚ => p.2 ≤ q.2) rayHitsDemo ∧
    move_raycast rayHitsDemo 99 = (0, 1) ∧
    ∀ p ∈ rayHitsDemo, (4 : ℚ)/15 ≤ p.2 := by
  have hs : List.Chain' (fun p q : Nat × ℚ => p.2 ≤ q.2) rayHitsDemo := by
    simp [rayHitsDemo, List.chain'_cons, List.chain'_singleton]
    norm_num
  have h := move_raycast_first_hit rayHitsDemo 99 hs
  exact ⟨hs, (h.2 (0, 4/15) [(1, 3/5)] rfl).1, (h.2 (0, 4/15) [(1, 3/5)] rfl).2⟩

/-- An engine step that leaves the bodies alone and reports one enabled,
touching contact whose fixture A carries unit index 1 and whose fixture B is
an obstacle fixture, carrying the default user-data pointer 0. -/
def sigmaObstacle : B2Step := fun bodies _ _ _ =>
  (bodies, [{ enabled := true, touching := true, a := 1, b := 0 }])

/-- Claim C3 failing input: two clear units and one enabled, touching contact
between the fixture of unit 1 and an obstacle fixture.  The contact walk of
move_step sets IN_CONTACT both on unit 1 and, through the obstacle default
user-data pointer 0, on unit 0, although the claim says a contact involving an
obstacle fixture sets no unit flag. -/
theorem move_step_obstacle_contact_sets_unit_flags :
    Nat.testBit (get_unit (move_step sigmaObstacle move_new [demoUnit, demoUnit] 1).2 0).state 0
      = true ∧
    Nat.testBit (get_unit (move_step sigmaObstacle move_new [demoUnit, demoUnit] 1).2 1).state 0
      = true := by
  decide

/-- A unit with caller bits set in its state word, used to exhibit the absence
of argument validation in move_step. -/
def unitC2 : MoveUnit :=
  { radius := 1, position := ⟨2, 3⟩, velocity := ⟨0, 0⟩, force := ⟨0, 0⟩, state := 5 }

/-- Claim C2 counterexample: dt = 0 violates the precondition dt > 0, yet
move_step is not rejected: the call proceeds and mutates the caller unit
array, clearing the IN_CONTACT bit (state 5 becomes 4), so no rejection
happens before mutation. -/
theorem move_step_no_validation_counterexample :
    (0 : ℚ) ≤ 0 ∧
    (move_step idStep move_new [unitC2] 0).2 = [{ unitC2 with state := 4 }] ∧
    (move_step idStep move_new [unitC2] 0).2 ≠ [unitC2] := by
  refine ⟨le_refl 0, by decide, by decide⟩

/-- Reading a list after List.set: the written value at the written index when
in range, the old value everywhere else. -/
lemma getD_set {α : Type} [Inhabited α] (l : List α) (a : Nat) (x : α) (i : Nat) :
    (l.set a x).getD i default =
      if a = i ∧ i < l.length then x else l.getD i default := by
  induction l generalizing a i with
  | nil => simp
  | cons y ys ih =>
    cases a with
    | zero =>
      cases i with
      | zero => simp
      | succ j => simp
    | succ b =>
      cases i with
      | zero => simp
      | succ j =>
        rw [List.set_cons_succ, List.getD_cons_succ, List.getD_cons_succ, ih]
        simp only [List.length_cons]
        by_cases hb : b = j ∧ j < ys.length
        · rw [if_pos hb, if_pos (by omega)]
        · rw [if_neg hb, if_neg (by omega)]

/-- writeBackAux preserves the list length. -/
lemma writeBackAux_length (bodies : List B2Body) (i : Nat) (us : List MoveUnit) :
    (writeBackAux bodies i us).length = us.length := by
  induction us generalizing i with
  | nil => rfl
  | cons u us ih => simp [writeBackAux, ih]

/-- Pointwise description of writeBackAux: unit j is rewritten from body
i + j. -/
lemma writeBackAux_getD (bodies : List B2Body) (i : Nat) (us : List MoveUnit)
    (j : Nat) (hj : j < us.length) :
    (writeBackAux bodies i us).getD j default
      = wbUnit (bodies.getD (i + j) default) (us.getD j default) := by
  induction us generalizing i j with
  | nil => simp at hj
  | cons u us ih =>
    cases j with
    | zero => simp [writeBackAux]
    | succ j =>
      have := ih (i + 1) j (by simpa using Nat.lt_of_succ_lt_succ hj)
      simpa [writeBackAux, Nat.add_assoc, Nat.add_comm 1 j] using this

/-- setFlagAt preserves the list length. -/
lemma setFlagAt_length (units : List MoveUnit) (a : Nat) :
    (setFlagAt units a).length = units.length := by
  simp [setFlagAt]

/-- Reading through setFlagAt: the flag is merged exactly at the named index
when it is in range. -/
lemma setFlagAt_getD (units : List MoveUnit) (a i : Nat) (hi : i < units.length) :
    (setFlagAt units a).getD i default =
      if a = i then orInContact (units.getD i default) else units.getD i default := by
  rw [setFlagAt, getD_set]
  by_cases h : a = i
  · subst h
    rw [if_pos ⟨rfl, hi⟩, if_pos rfl, get_unit]
  · rw [if_neg (by tauto), if_neg h]

/-- Setting the IN_CONTACT bit twice is the same as setting it once. -/
lemma orInContact_idem (u : MoveUnit) : orInContact (orInContact u) = orInContact u := by
  have h11 : (1 : Nat) ||| 1 = 1 := by decide
  simp only [orInContact, MOVE_IN_CONTACT, Nat.lor_assoc, h11]

/-- contactPhase preserves the list length. -/
lemma contactPhase_length (cs : List Contact) (units : List MoveUnit) :
    (contactPhase units cs).length = units.length := by
  induction cs generalizing units with
  | nil => rfl
  | cons c cs ih =>
    rw [contactPhase]
    by_cases h : c.enabled && c.touching
    · rw [if_pos h, ih, setFlagAt_length, setFlagAt_length]
    · rw [if_neg h, ih]

/-- Pointwise description of the contact walk: unit i ends with the
IN_CONTACT bit merged in exactly when some enabled, touching contact names i
on either side. -/
lemma contactPhase_getD (cs : List Contact) (units : List MoveUnit) (i : Nat)
    (hi : i < units.length) :
    (contactPhase units cs).getD i default =
      if touchFlag cs i then orInContact (units.getD i default)
      else units.getD i default := by
  induction cs generalizing units with
  | nil => simp [contactPhase, touchFlag]
  | cons c cs ih =>
    rw [contactPhase]
    have hflag : touchFlag (c :: cs) i = (contactHits c i || touchFlag cs i) := by
      simp [touchFlag]
    by_cases het : (c.enabled && c.touching) = true
    · rw [if_pos het]
      have hlen : i < (setFlagAt (setFlagAt units c.a) c.b).length := by
        rw [setFlagAt_length, setFlagAt_length]; exact hi
      have hlen1 : i < (setFlagAt units c.a).length := by rw [setFlagAt_length]; exact hi
      rw [ih _ hlen, setFlagAt_getD _ _ _ hlen1, setFlagAt_getD _ _ _ hi, hflag]
      have hand := het
      rw [Bool.and_eq_true] at hand
      have hhits : contactHits c i = (c.a == i || c.b == i) := by
        simp [contactHits, hand.1, hand.2]
      rw [hhits]
      by_cases ha : c.a = i <;> by_cases hb : c.b = i <;>
        by_cases ht : touchFlag cs i = true <;>
          simp [ha, hb, ht, orInContact_idem]
    · rw [if_neg het, ih _ hi, hflag]
      have h0 : (c.enabled && c.touching) = false := by
        revert het; cases (c.enabled && c.touching) <;> simp
      have hfalse : contactHits c i = false := by
        simp [contactHits, h0]
      rw [hfalse, Bool.false_or]

/-- Every bit of the write-back mask 0xFFFFFFFE other than bit 0 is set, up to
the uint32 width. -/
lemma mask_testBit_of_ne (k : Nat) (hk : k ≠ 0) (hlt : k < 32) :
    Nat.testBit 0xFFFFFFFE k = true := by
  have h : ∀ f : Fin 32, f.val ≠ 0 → Nat.testBit 0xFFFFFFFE f.val = true := by decide
  exact h ⟨k, hlt⟩ hk

/-- Clearing bit 0 with the uint32 mask leaves every other bit of a 32-bit
state word unchanged. -/
lemma state_land_mask_testBit (s k : Nat) (hk : k ≠ 0) (hs : s < 2 ^ 32) :
    Nat.testBit (s &&& 0xFFFFFFFE) k = Nat.testBit s k := by
  rcases Nat.lt_or_ge k 32 with hlt | hge
  · rw [Nat.testBit_land, mask_testBit_of_ne k hk hlt, Bool.and_true]
  · have h2 : (2 : Nat) ^ 32 ≤ 2 ^ k := Nat.pow_le_pow_right (by omega) hge
    have hs2 : s < 2 ^ k := lt_of_lt_of_le hs h2
    have hmask : (0xFFFFFFFE : Nat) < 2 ^ k := lt_of_lt_of_le (by norm_num) h2
    rw [Nat.testBit_land, Nat.testBit_lt_two_pow hs2, Nat.testBit_lt_two_pow hmask]
    rfl

/-- Bit 0 is clear after masking with 0xFFFFFFFE. -/
lemma land_mask_testBit_zero (s : Nat) : Nat.testBit (s &&& 0xFFFFFFFE) 0 = false := by
  rw [Nat.testBit_land]
  have h : Nat.testBit 0xFFFFFFFE 0 = false := by decide
  rw [h, Bool.and_false]

/-- Setting bit 0 leaves every other bit unchanged. -/
lemma lor_one_testBit_ne (s k : Nat) (hk : k ≠ 0) :
    Nat.testBit (s ||| 1) k = Nat.testBit s k := by
  rw [Nat.testBit_lor]
  have h2 : (1 : Nat) < 2 ^ k := by
    have hk1 : 1 ≤ k := Nat.one_le_iff_ne_zero.mpr hk
    calc (1 : Nat) < 2 ^ 1 := by omega
    _ ≤ 2 ^ k := Nat.pow_le_pow_right (by omega) hk1
  rw [Nat.testBit_lt_two_pow h2, Bool.or_false]

/-- Bit 0 is set after merging MOVE_IN_CONTACT. -/
lemma lor_one_testBit_zero (s : Nat) : Nat.testBit (s ||| 1) 0 = true := by
  rw [Nat.testBit_lor]
  have h : Nat.testBit 1 0 = true := by decide
  rw [h, Bool.or_true]

/-- Pointwise description of the unit array returned by move_step: each unit
in range is rewritten from its body and gets IN_CONTACT merged in exactly when
the post-step contact list names it. -/
lemma move_step_units_getD (σ : B2Step) (w : MoveWorld) (units : List MoveUnit)
    (dt : ℚ) (i : Nat) (hi : i < units.length) :
    get_unit (move_step σ w units dt).2 i =
      if touchFlag ((σ (stepPhase1 w.bodies units) dt 8 3).2) i then
        orInContact (wbUnit (((σ (stepPhase1 w.bodies units) dt 8 3).1).getD i default)
          (units.getD i default))
      else
        wbUnit (((σ (stepPhase1 w.bodies units) dt 8 3).1).getD i default)
          (units.getD i default) := by
  have hstep : (move_step σ w units dt).2
      = contactPhase (writeBackAux ((σ (stepPhase1 w.bodies units) dt 8 3).1) 0 units)
          ((σ (stepPhase1 w.bodies units) dt 8 3).2) := rfl
  have hlen : i < (writeBackAux ((σ (stepPhase1 w.bodies units) dt 8 3).1) 0 units).length := by
    rw [writeBackAux_length]; exact hi
  rw [get_unit, hstep, contactPhase_getD _ _ _ hlen, writeBackAux_getD _ 0 _ i hi]
  simp only [Nat.zero_add]

/-- Claim C6: every bit of a unit state word other than IN_CONTACT (bit 0) has
the same value after a step as before it. -/
theorem move_step_preserves_caller_state_bits (σ : B2Step) (w : MoveWorld)
    (units : List MoveUnit) (dt : ℚ) (i k : Nat) (hi : i < units.length) (hk : k ≠ 0)
    (hs : (get_unit units i).state < 2 ^ 32) :
    Nat.testBit (get_unit (move_step σ w units dt).2 i).state k
      = Nat.testBit (get_unit units i).state k := by
  have hs2 : (units.getD i default).state < 2 ^ 32 := hs
  rw [move_step_units_getD σ w units dt i hi]
  by_cases ht : touchFlag ((σ (stepPhase1 w.bodies units) dt 8 3).2) i = true
  · rw [if_pos ht]
    show Nat.testBit (((units.getD i default).state &&& 0xFFFFFFFE) ||| 1) k = _
    rw [lor_one_testBit_ne _ _ hk, state_land_mask_testBit _ _ hk hs2]
    rfl
  · rw [if_neg ht]
    show Nat.testBit ((units.getD i default).state &&& 0xFFFFFFFE) k = _
    rw [state_land_mask_testBit _ _ hk hs2]
    rfl

/-- Witness for C6: a step on a unit with state 5 preserves bit 2. -/
theorem move_step_preserves_caller_state_bits_witness :
    0 < ([unitC2] : List MoveUnit).length ∧ (2 : Nat) ≠ 0 ∧
    (get_unit [unitC2] 0).state < 2 ^ 32 ∧
    Nat.testBit (get_unit (move_step idStep move_new [unitC2] 1).2 0).state 2
      = Nat.testBit (get_unit [unitC2] 0).state 2 :=
  ⟨by decide, by decide, by decide,
    move_step_preserves_caller_state_bits idStep move_new [unitC2] 1 0 2
      (by decide) (by decide) (by decide)⟩

/-- Claim C2 amended: move_step performs no argument validation.  A call with
dt ≤ 0 proceeds like any other: every unit position and velocity is rewritten
from the stepped bodies and the IN_CONTACT bit is recomputed from the contact
list, so the caller array is mutated rather than the call rejected. -/
theorem move_step_runs_without_validation (σ : B2Step) (w : MoveWorld)
    (units : List MoveUnit) (dt : ℚ) (hdt : dt ≤ 0) (i : Nat) (hi : i < units.length) :
    (get_unit (move_step σ w units dt).2 i).position
        = (((σ (stepPhase1 w.bodies units) dt 8 3).1).getD i default).position ∧
    (get_unit (move_step σ w units dt).2 i).velocity
        = (((σ (stepPhase1 w.bodies units) dt 8 3).1).getD i default).velocity ∧
    Nat.testBit (get_unit (move_step σ w units dt).2 i).state 0
        = touchFlag ((σ (stepPhase1 w.bodies units) dt 8 3).2) i := by
  rw [move_step_units_getD σ w units dt i hi]
  by_cases ht : touchFlag ((σ (stepPhase1 w.bodies units) dt 8 3).2) i = true
  · rw [if_pos ht, ht]
    exact ⟨rfl, rfl, lor_one_testBit_zero _⟩
  · rw [if_neg ht]
    have ht2 : touchFlag ((σ (stepPhase1 w.bodies units) dt 8 3).2) i = false := by
      revert ht
      cases touchFlag ((σ (stepPhase1 w.bodies units) dt 8 3).2) i <;> simp
    rw [ht2]
    exact ⟨rfl, rfl, land_mask_testBit_zero _⟩

/-- Witness for the amended C2 at dt = -1 on one unit. -/
theorem move_step_runs_without_validation_witness :
    ((-1 : ℚ) ≤ 0) ∧ 0 < ([demoUnit] : List MoveUnit).length ∧
    Nat.testBit (get_unit (move_step idStep move_new [demoUnit] (-1)).2 0).state 0
      = touchFlag ((idStep (stepPhase1 move_new.bodies [demoUnit]) (-1) 8 3).2) 0 :=
  ⟨by norm_num, by decide,
    (move_step_runs_without_validation idStep move_new [demoUnit] (-1)
      (by norm_num) 0 (by decide)).2.2⟩

/-- Bit 0 of a stepped unit equals the touch flag computed from the post-step
contact list. -/
lemma move_step_state_bit0 (σ : B2Step) (w : MoveWorld) (units : List MoveUnit)
    (dt : ℚ) (m : Nat) (hm : m < units.length) :
    Nat.testBit (get_unit (move_step σ w units dt).2 m).state 0
      = touchFlag ((σ (stepPhase1 w.bodies units) dt 8 3).2) m := by
  rw [move_step_units_getD σ w units dt m hm]
  by_cases ht : touchFlag ((σ (stepPhase1 w.bodies units) dt 8 3).2) m = true
  · rw [if_pos ht, ht]
    exact lor_one_testBit_zero _
  · rw [if_neg ht]
    have ht2 : touchFlag ((σ (stepPhase1 w.bodies units) dt 8 3).2) m = false := by
      revert ht
      cases touchFlag ((σ (stepPhase1 w.bodies units) dt 8 3).2) m <;> simp
    rw [ht2]
    exact land_mask_testBit_zero _

/-- Claim C5: when every post-step contact is a unit-unit contact, a unit has
IN_CONTACT set iff it participates in an enabled, touching contact, and the
report is symmetric: the bit of i is set iff some unit j touching i has its
bit set as well. -/
theorem move_step_unit_contact_symmetry (σ : B2Step) (w : MoveWorld)
    (units : List MoveUnit) (dt : ℚ)
    (hub : ∀ c ∈ (σ (stepPhase1 w.bodies units) dt 8 3).2,
             c.a < units.length ∧ c.b < units.length)
    (i : Nat) (hi : i < units.length) :
    (Nat.testBit (get_unit (move_step σ w units dt).2 i).state 0 = true ↔
        touchFlag ((σ (stepPhase1 w.bodies units) dt 8 3).2) i = true) ∧
    (Nat.testBit (get_unit (move_step σ w units dt).2 i).state 0 = true ↔
        ∃ j, j < units.length ∧
          unitTouch ((σ (stepPhase1 w.bodies units) dt 8 3).2) i j = true ∧
          Nat.testBit (get_unit (move_step σ w units dt).2 j).state 0 = true) := by
  constructor
  · rw [move_step_state_bit0 σ w units dt i hi]
  · constructor
    · intro hb
      rw [move_step_state_bit0 σ w units dt i hi] at hb
      rw [touchFlag, List.any_eq_true] at hb
      obtain ⟨c, hc, hhit⟩ := hb
      rw [contactHits] at hhit
      simp only [Bool.and_eq_true, Bool.or_eq_true, beq_iff_eq] at hhit
      obtain ⟨⟨hen, hto⟩, hab⟩ := hhit
      rcases hab with ha | hb2
      · refine ⟨c.b, (hub c hc).2, ?_, ?_⟩
        · rw [unitTouch, List.any_eq_true]
          refine ⟨c, hc, ?_⟩
          simp [hen, hto, ha]
        · rw [move_step_state_bit0 σ w units dt c.b (hub c hc).2, touchFlag,
            List.any_eq_true]
          refine ⟨c, hc, ?_⟩
          simp [contactHits, hen, hto]
      · refine ⟨c.a, (hub c hc).1, ?_, ?_⟩
        · rw [unitTouch, List.any_eq_true]
          refine ⟨c, hc, ?_⟩
          simp [hen, hto, hb2]
        · rw [move_step_state_bit0 σ w units dt c.a (hub c hc).1, touchFlag,
            List.any_eq_true]
          refine ⟨c, hc, ?_⟩
          simp [contactHits, hen, hto]
    · rintro ⟨j, hj, htouch, hbj⟩
      rw [move_step_state_bit0 σ w units dt i hi]
      rw [unitTouch, List.any_eq_true] at htouch
      obtain ⟨c, hc, hcij⟩ := htouch
      simp only [Bool.and_eq_true, Bool.or_eq_true, beq_iff_eq] at hcij
      obtain ⟨⟨hen, hto⟩, hd⟩ := hcij
      rw [touchFlag, List.any_eq_true]
      refine ⟨c, hc, ?_⟩
      rcases hd with ⟨ha, hb2⟩ | ⟨ha, hb2⟩ <;> simp [contactHits, hen, hto, ha, hb2]

/-- An engine step reporting one enabled, touching unit-unit contact between
units 0 and 1. -/
def sigmaTouch : B2Step := fun bodies _ _ _ =>
  (bodies, [{ enabled := true, touching := true, a := 0, b := 1 }])

/-- Witness for C5 on two units with one touching contact between them. -/
theorem move_step_unit_contact_symmetry_witness :
    (∀ c ∈ (sigmaTouch (stepPhase1 move_new.bodies [demoUnit, demoUnit]) 1 8 3).2,
        c.a < ([demoUnit, demoUnit] : List MoveUnit).length ∧
        c.b < ([demoUnit, demoUnit] : List MoveUnit).length) ∧
    0 < ([demoUnit, demoUnit] : List MoveUnit).length ∧
    (Nat.testBit (get_unit (move_step sigmaTouch move_new [demoUnit, demoUnit] 1).2 0).state 0
        = true ↔
      touchFlag ((sigmaTouch (stepPhase1 move_new.bodies [demoUnit, demoUnit]) 1 8 3).2) 0
        = true) :=
  ⟨by decide, by decide,
    (move_step_unit_contact_symmetry sigmaTouch move_new [demoUnit, demoUnit] 1
      (by decide) 0 (by decide)).1⟩

/-- ApplyForceToCenter never changes the fixture scratch index. -/
lemma applyForceToCenter_scratch (b : B2Body) (f : B2Vec2) (wake : Bool) :
    (applyForceToCenter b f wake).scratch = b.scratch := by
  cases hw : wake <;> cases ha : b.awake <;> simp [applyForceToCenter, hw, ha]

/-- ApplyForceToCenter never changes the shape radius. -/
lemma applyForceToCenter_radius (b : B2Body) (f : B2Vec2) (wake : Bool) :
    (applyForceToCenter b f wake).radius = b.radius := by
  cases hw : wake <;> cases ha : b.awake <;> simp [applyForceToCenter, hw, ha]

/-- ApplyForceToCenter never changes the body position. -/
lemma applyForceToCenter_position (b : B2Body) (f : B2Vec2) (wake : Bool) :
    (applyForceToCenter b f wake).position = b.position := by
  cases hw : wake <;> cases ha : b.awake <;> simp [applyForceToCenter, hw, ha]

/-- Applying a zero force with a false wake flag leaves the body unchanged. -/
lemma applyForceToCenter_zero (b : B2Body) :
    applyForceToCenter b ⟨0, 0⟩ false = b := by
  cases b with
  | mk radius position velocity forceAcc awake scratch =>
    cases forceAcc with
    | mk fx fy => cases awake <;> simp [applyForceToCenter]

/-- One loop iteration grows the body list to cover index i. -/
lemma stepBody_length (units : List MoveUnit) (i : Nat) (bodies : List B2Body)
    (hle : i ≤ bodies.length) :
    (stepBody units i bodies).length = max bodies.length (i + 1) := by
  simp only [stepBody]
  by_cases hp : bodies.length ≤ i
  · have hip : bodies.length = i := by omega
    rw [if_pos hp, List.length_set, List.length_append]
    simp [hip]
  · rw [if_neg hp, List.length_set]
    omega

/-- One loop iteration leaves every other index of the body list unchanged. -/
lemma stepBody_getD_ne (units : List MoveUnit) (i : Nat) (bodies : List B2Body)
    (hle : i ≤ bodies.length) (j : Nat) (hj : j ≠ i) :
    (stepBody units i bodies).getD j default = bodies.getD j default := by
  simp only [stepBody]
  by_cases hp : bodies.length ≤ i
  · have hip : bodies.length = i := by omega
    rw [if_pos hp, getD_set, if_neg (by tauto)]
    by_cases hjl : j < bodies.length
    · exact List.getD_append _ _ _ _ hjl
    · rw [List.getD_eq_default _ _ (by simp; omega), List.getD_eq_default _ _ (by omega)]
  · rw [if_neg hp, getD_set, if_neg (by tauto)]

/-- One loop iteration at index i produces, at index i, the force-applied old
body when the index was backed, and the force-applied fresh body otherwise. -/
lemma stepBody_getD_self (units : List MoveUnit) (i : Nat) (bodies : List B2Body)
    (hle : i ≤ bodies.length) :
    (stepBody units i bodies).getD i default =
      applyForceToCenter
        (if i < bodies.length then bodies.getD i default
         else create_body (get_unit units i) i)
        (get_unit units i).force (forceWake (get_unit units i).force) := by
  simp only [stepBody]
  by_cases hp : bodies.length ≤ i
  · have hip : bodies.length = i := by omega
    rw [if_pos hp, getD_set,
      if_pos ⟨rfl, by simp only [List.length_append, List.length_cons, List.length_nil]; omega⟩,
      if_neg (by omega)]
    rw [List.getD_append_right _ _ _ _ (by omega), hip]
    simp
  · rw [if_neg hp, getD_set, if_pos ⟨rfl, by omega⟩, if_pos (by omega)]

/-- The loop processes indices [i, i+n), growing the list to cover them. -/
lemma stepPhase1Aux_length (units : List MoveUnit) (n : Nat) :
    ∀ i bodies, i ≤ List.length bodies →
      (stepPhase1Aux units i n bodies).length = max bodies.length (i + n) := by
  induction n with
  | zero =>
    intro i bodies hle
    simp [stepPhase1Aux]
    omega
  | succ n ih =>
    intro i bodies hle
    rw [stepPhase1Aux, ih (i + 1) _ (by rw [stepBody_length _ _ _ hle]; omega),
      stepBody_length _ _ _ hle]
    omega

/-- Indices below the loop window are untouched. -/
lemma stepPhase1Aux_getD_lt (units : List MoveUnit) (n : Nat) :
    ∀ i bodies, i ≤ List.length bodies → ∀ j, j < i →
      (stepPhase1Aux units i n bodies).getD j default = bodies.getD j default := by
  induction n with
  | zero =>
    intro i bodies hle j hj
    rfl
  | succ n ih =>
    intro i bodies hle j hj
    rw [stepPhase1Aux, ih (i + 1) _ (by rw [stepBody_length _ _ _ hle]; omega) j (by omega),
      stepBody_getD_ne _ _ _ hle j (by omega)]

/-- Indices at or beyond the loop window are untouched. -/
lemma stepPhase1Aux_getD_ge (units : List MoveUnit) (n : Nat) :
    ∀ i bodies, i ≤ List.length bodies → ∀ j, i + n ≤ j →
      (stepPhase1Aux units i n bodies).getD j default = bodies.getD j default := by
  induction n with
  | zero =>
    intro i bodies hle j hj
    rfl
  | succ n ih =>
    intro i bodies hle j hj
    rw [stepPhase1Aux, ih (i + 1) _ (by rw [stepBody_length _ _ _ hle]; omega) j (by omega),
      stepBody_getD_ne _ _ _ hle j (by omega)]

/-- Inside the loop window, index j holds the force-applied old body when j
was backed on loop entry, and the force-applied fresh body otherwise. -/
lemma stepPhase1Aux_getD_mid (units : List MoveUnit) (n : Nat) :
    ∀ i bodies, i ≤ List.length bodies → ∀ j, i ≤ j → j < i + n →
      (stepPhase1Aux units i n bodies).getD j default =
        applyForceToCenter
          (if j < bodies.length then bodies.getD j default
           else create_body (get_unit units j) j)
          (get_unit units j).force (forceWake (get_unit units j).force) := by
  induction n with
  | zero =>
    intro i bodies hle j hj1 hj2
    omega
  | succ n ih =>
    intro i bodies hle j hj1 hj2
    have hle2 : i + 1 ≤ (stepBody units i bodies).length := by
      rw [stepBody_length _ _ _ hle]; omega
    rcases Nat.eq_or_lt_of_le hj1 with rfl | hgt
    · rw [stepPhase1Aux, stepPhase1Aux_getD_lt units n (i + 1) _ hle2 i (by omega),
        stepBody_getD_self _ _ _ hle]
    · rw [stepPhase1Aux, ih (i + 1) _ hle2 j (by omega) (by omega),
        stepBody_getD_ne _ _ _ hle j (by omega)]
      have hlen : (stepBody units i bodies).length = max bodies.length (i + 1) :=
        stepBody_length _ _ _ hle
      by_cases hjb : j < bodies.length
      · rw [if_pos (by omega), if_pos hjb]
      · rw [if_neg (by omega), if_neg hjb]

/-- The reconcile phase grows the body list to cover all unit indices. -/
lemma stepPhase1_length (bodies : List B2Body) (units : List MoveUnit) :
    (stepPhase1 bodies units).length = max bodies.length units.length := by
  rw [stepPhase1, stepPhase1Aux_length units units.length 0 bodies (Nat.zero_le _)]
  omega

/-- Pointwise description of the reconcile phase for unit indices. -/
lemma stepPhase1_getD_lt (bodies : List B2Body) (units : List MoveUnit) (j : Nat)
    (hj : j < units.length) :
    (stepPhase1 bodies units).getD j default =
      applyForceToCenter
        (if j < bodies.length then bodies.getD j default
         else create_body (get_unit units j) j)
        (get_unit units j).force (forceWake (get_unit units j).force) :=
  stepPhase1Aux_getD_mid units units.length 0 bodies (Nat.zero_le _) j (Nat.zero_le _)
    (by omega)

/-- Indices beyond the unit count are untouched by the reconcile phase. -/
lemma stepPhase1_getD_ge (bodies : List B2Body) (units : List MoveUnit) (j : Nat)
    (hj : units.length ≤ j) :
    (stepPhase1 bodies units).getD j default = bodies.getD j default :=
  stepPhase1Aux_getD_ge units units.length 0 bodies (Nat.zero_le _) j (by omega)

/-- Every body of the list carries its own position as scratch index. -/
def ScratchInv (bodies : List B2Body) : Prop :=
  ∀ j, j < bodies.length → (bodies.getD j default).scratch = j

/-- The reconcile phase establishes the scratch invariant on every index it
creates and preserves it everywhere else. -/
lemma stepPhase1_scratch (bodies : List B2Body) (units : List MoveUnit)
    (hinv : ScratchInv bodies) : ScratchInv (stepPhase1 bodies units) := by
  intro j hj
  rw [stepPhase1_length] at hj
  by_cases hu : j < units.length
  · rw [stepPhase1_getD_lt bodies units j hu, applyForceToCenter_scratch]
    by_cases hb : j < bodies.length
    · rw [if_pos hb]
      exact hinv j hb
    · rw [if_neg hb]
      rfl
  · have hb : j < bodies.length := by omega
    rw [stepPhase1_getD_ge bodies units j (by omega)]
    exact hinv j hb

/-- Across a whole sequence of step calls with a well-behaved engine, the
scratch invariant holds, the body list never shrinks, and it covers the unit
count of every call made. -/
lemma stepCalls_inv (σ : B2Step) (hσ : B2StepOK σ) (calls : List (List MoveUnit × ℚ)) :
    ∀ w, ScratchInv w.bodies →
      ScratchInv (stepCalls σ w calls).bodies ∧
      w.bodies.length ≤ (stepCalls σ w calls).bodies.length ∧
      ∀ c ∈ calls, c.1.length ≤ (stepCalls σ w calls).bodies.length := by
  induction calls with
  | nil =>
    intro w hinv
    exact ⟨hinv, le_refl _, by simp⟩
  | cons p rest ih =>
    intro w hinv
    obtain ⟨us, dt⟩ := p
    have hw1 : (move_step σ w us dt).1.bodies = (σ (stepPhase1 w.bodies us) dt 8 3).1 := rfl
    have hσ1 := hσ (stepPhase1 w.bodies us) dt 8 3
    have hlen1 : (move_step σ w us dt).1.bodies.length
        = max w.bodies.length us.length := by
      rw [hw1, hσ1.1, stepPhase1_length]
    have hinv1 : ScratchInv (move_step σ w us dt).1.bodies := by
      intro j hj
      rw [hw1, (hσ1.2 j).1]
      have hj2 : j < (stepPhase1 w.bodies us).length := by
        rw [← hσ1.1, ← hw1]
        exact hj
      exact stepPhase1_scratch w.bodies us hinv j hj2
    obtain ⟨hres, hgrow, hcov⟩ := ih (move_step σ w us dt).1 hinv1
    have hsc : stepCalls σ w ((us, dt) :: rest)
        = stepCalls σ (move_step σ w us dt).1 rest := rfl
    rw [hsc]
    have hw2 : w.bodies.length ≤ (move_step σ w us dt).1.bodies.length := by
      rw [hlen1]; omega
    refine ⟨hres, le_trans hw2 hgrow, ?_⟩
    intro c hc
    rcases List.mem_cons.mp hc with hc1 | hc2
    · rw [hc1]
      refine le_trans ?_ hgrow
      show us.length ≤ (move_step σ w us dt).1.bodies.length
      rw [hlen1]
      omega
    · exact hcov c hc2

/-- One loop iteration computes the same bodies from two unit arrays that
agree on the force at its index and agree entirely on any index it creates. -/
lemma stepBody_congr (us us2 : List MoveUnit) (i : Nat) (bodies : List B2Body)
    (hf : (get_unit us i).force = (get_unit us2 i).force)
    (hc : bodies.length ≤ i → get_unit us i = get_unit us2 i) :
    stepBody us i bodies = stepBody us2 i bodies := by
  by_cases hp : bodies.length ≤ i
  · simp only [stepBody, if_pos hp, hc hp]
  · simp only [stepBody, if_neg hp, hf]

/-- The loop computes the same bodies from two unit arrays that agree on all
forces in its window and agree entirely beyond the backed prefix. -/
lemma stepPhase1Aux_congr (us us2 : List MoveUnit) (n : Nat) :
    ∀ i bodies, i ≤ List.length bodies →
      (∀ j, i ≤ j → j < i + n → (get_unit us j).force = (get_unit us2 j).force) →
      (∀ j, i ≤ j → j < i + n → List.length bodies ≤ j → get_unit us j = get_unit us2 j) →
      stepPhase1Aux us i n bodies = stepPhase1Aux us2 i n bodies := by
  induction n with
  | zero =>
    intro i bodies hle hforce hfull
    rfl
  | succ n ih =>
    intro i bodies hle hforce hfull
    have hstep : stepBody us i bodies = stepBody us2 i bodies :=
      stepBody_congr us us2 i bodies (hforce i (le_refl i) (by omega))
        (fun hp => hfull i (le_refl i) (by omega) hp)
    have hlenB : (stepBody us2 i bodies).length = max bodies.length (i + 1) :=
      stepBody_length us2 i bodies hle
    rw [stepPhase1Aux, stepPhase1Aux, hstep]
    exact ih (i + 1) (stepBody us2 i bodies) (by omega)
      (fun j h1 h2 => hforce j (by omega) (by omega))
      (fun j h1 h2 h3 => hfull j (by omega) (by omega) (by omega))

/-- Claim C8: with a well-behaved engine and step calls of non-decreasing
length, every backed body position j carries scratch index j and the body list
covers the unit count of every call; the reconcile phase reads radius and
position from the unit record exactly at body creation: a created body takes
both from the record, and the computed bodies depend on the records beyond the
backed prefix only through that creation, otherwise only on the force
fields. -/
theorem move_step_body_unit_bijection (σ : B2Step) (hσ : B2StepOK σ)
    (calls : List (List MoveUnit × ℚ))
    (hmono : List.Chain' (fun a b => a ≤ b) (calls.map fun c => c.1.length)) :
    (∀ j, j < (stepCalls σ move_new calls).bodies.length →
        ((stepCalls σ move_new calls).bodies.getD j default).scratch = j) ∧
    (∀ c ∈ calls, c.1.length ≤ (stepCalls σ move_new calls).bodies.length) ∧
    (∀ bodies units j, List.length bodies ≤ j → j < List.length units →
        ((stepPhase1 bodies units).getD j default).radius = (get_unit units j).radius ∧
        ((stepPhase1 bodies units).getD j default).position = (get_unit units j).position) ∧
    (∀ us us2 bodies, us.length = us2.length →
        (∀ j, j < us.length → (get_unit us j).force = (get_unit us2 j).force) →
        (∀ j, List.length bodies ≤ j → get_unit us j = get_unit us2 j) →
        stepPhase1 bodies us = stepPhase1 bodies us2) := by
  have hbase : ScratchInv move_new.bodies := by
    intro j hj
    simp [move_new] at hj
  obtain ⟨hres, hgrow, hcov⟩ := stepCalls_inv σ hσ calls move_new hbase
  refine ⟨hres, hcov, ?_, ?_⟩
  · intro bodies units j hbj hju
    rw [stepPhase1_getD_lt bodies units j hju, if_neg (by omega),
      applyForceToCenter_radius, applyForceToCenter_position]
    exact ⟨rfl, rfl⟩
  · intro us us2 bodies hlen hforce hfull
    rw [stepPhase1, stepPhase1, ← hlen]
    exact stepPhase1Aux_congr us us2 us.length 0 bodies (Nat.zero_le _)
      (fun j h1 h2 => hforce j (by omega))
      (fun j h1 h2 h3 => hfull j h3)

/-- Witness for C8: two calls through the identity engine, lengths 1 then 2;
the body at position 0 carries scratch 0 and both calls are covered. -/
theorem move_step_body_unit_bijection_witness :
    B2StepOK idStep ∧
    List.Chain' (fun a b => a ≤ b)
      (([([demoUnit], 1), ([demoUnit, demoUnit], 1)] :
        List (List MoveUnit × ℚ)).map fun c => c.1.length) ∧
    ((stepCalls idStep move_new
        [([demoUnit], 1), ([demoUnit, demoUnit], 1)]).bodies.getD 0 default).scratch = 0 := by
  have hok : B2StepOK idStep := fun bodies dt vIters posIters =>
    ⟨rfl, fun j => ⟨rfl, rfl⟩⟩
  have hch : List.Chain' (fun a b => a ≤ b)
      (([([demoUnit], 1), ([demoUnit, demoUnit], 1)] :
        List (List MoveUnit × ℚ)).map fun c => c.1.length) := by
    simp [List.chain'_cons, List.chain'_singleton]
  refine ⟨hok, hch, ?_⟩
  exact (move_step_body_unit_bijection idStep hok
    [([demoUnit], 1), ([demoUnit, demoUnit], 1)] hch).1 0 (by decide)

/-- Claim C9: the wake flag passed to ApplyForceToCenter is true exactly for a
nonzero force, and a unit with force (0,0) leaves its backed body, sleeping or
not, entirely unchanged through the apply-forces phase. -/
theorem stepPhase1_zero_force_keeps_sleep (bodies : List B2Body) (units : List MoveUnit)
    (i : Nat) (hi : i < units.length) (hib : i < bodies.length)
    (hf : (get_unit units i).force = ⟨0, 0⟩) :
    (∀ f : B2Vec2, forceWake f = true ↔ f ≠ ⟨0, 0⟩) ∧
    (stepPhase1 bodies units).getD i default = bodies.getD i default := by
  constructor
  · intro f
    cases f with
    | mk x y =>
      simp only [forceWake, Bool.or_eq_true, decide_eq_true_eq, ne_eq, B2Vec2.mk.injEq]
      tauto
  · rw [stepPhase1_getD_lt bodies units i hi, if_pos hib, hf]
    have hw : forceWake ⟨0, 0⟩ = false := by decide
    rw [hw, applyForceToCenter_zero]

/-- A sleeping body with scratch 0, used to instantiate C9. -/
def asleepBody : B2Body :=
  { radius := 1, position := ⟨0, 0⟩, velocity := ⟨0, 0⟩, forceAcc := ⟨0, 0⟩,
    awake := false, scratch := 0 }

/-- Witness for C9: one sleeping body and one zero-force unit; the
apply-forces phase leaves the body asleep and unchanged. -/
theorem stepPhase1_zero_force_keeps_sleep_witness :
    0 < ([demoUnit] : List MoveUnit).length ∧
    0 < ([asleepBody] : List B2Body).length ∧
    (get_unit [demoUnit] 0).force = ⟨0, 0⟩ ∧
    (stepPhase1 [asleepBody] [demoUnit]).getD 0 default = [asleepBody].getD 0 default :=
  ⟨by decide, by decide, by decide,
    (stepPhase1_zero_force_keeps_sleep [asleepBody] [demoUnit] 0
      (by decide) (by decide) (by decide)).2⟩

/-- The fixture density written by create_body (line 42 of move.cpp):
fd.density = 1.0f / (b2_pi * radius * radius), float32 idealized as a real
number. -/
noncomputable def fixtureDensity (radius : ℝ) : ℝ := 1 / (Real.pi * radius * radius)

/-- Modelled from the spec: the engine computes a circle fixture mass as
density times the circle area pi times radius squared. -/
noncomputable def circleMass (density radius : ℝ) : ℝ :=
  density * (Real.pi * radius * radius)

/-- The mass of a unit body: the created density applied to its own circle. -/
noncomputable def unitMass (radius : ℝ) : ℝ := circleMass (fixtureDensity radius) radius

/-- Modelled from the spec: one velocity integration from rest under a
constant force over dt gives speed force / mass * dt. -/
noncomputable def speedFromRest (force dt mass : ℝ) : ℝ := force / mass * dt

/-- Claim C7: the density 1/(pi r^2) gives every unit mass exactly 1 whatever
its positive radius, so two units of different radii pushed by the same force
for the same dt from rest reach the same speed, force times dt. -/
theorem unit_mass_normalization (r1 r2 F dt : ℝ) (h1 : 0 < r1) (h2 : 0 < r2) :
    unitMass r1 = 1 ∧ unitMass r2 = 1 ∧
    speedFromRest F dt (unitMass r1) = F * dt ∧
    speedFromRest F dt (unitMass r1) = speedFromRest F dt (unitMass r2) := by
  have hm : ∀ r : ℝ, 0 < r → unitMass r = 1 := by
    intro r hr
    have hne : Real.pi * r * r ≠ 0 :=
      mul_ne_zero (mul_ne_zero Real.pi_ne_zero (ne_of_gt hr)) (ne_of_gt hr)
    rw [unitMass, circleMass, fixtureDensity, one_div, inv_mul_cancel₀ hne]
  refine ⟨hm r1 h1, hm r2 h2, ?_, ?_⟩
  · rw [hm r1 h1, speedFromRest, div_one]
  · rw [hm r1 h1, hm r2 h2]

/-- Witness for C7 at radii 1 and 2, force 3, dt 5. -/
theorem unit_mass_normalization_witness :
    (0 : ℝ) < 1 ∧ (0 : ℝ) < 2 ∧ unitMass 1 = 1 ∧
    speedFromRest 3 5 (unitMass 1) = 3 * 5 :=
  ⟨one_pos, two_pos, (unit_mass_normalization 1 2 3 5 one_pos two_pos).1,
    (unit_mass_normalization 1 2 3 5 one_pos two_pos).2.2.1⟩
